import Mathlib

/-!
Shallow embedding of the app-store-scraper response normalization and
extraction layer.  Each definition mirrors one function of the TypeScript
source (`src/lib/search.ts`, `src/lib/ratings.ts`, `src/lib/privacy.ts`,
and the version-history / suggest modules).  Transport (`doRequest`) and
the HTML/XML parsing libraries are external collaborators: their outputs
(the raw response body, the lists of matched elements and attribute values)
are taken as explicit inputs to the embedded functions, exactly the values
the source reads off them.
-/

namespace AppStoreScraper

/-! ## Search pagination (`src/lib/search.ts`) -/

/-- One entry of the iTunes search `results` array, restricted to the
fields `search` reads: the `kind` tag and the optional `trackId`. -/
structure ITunesEntry where
  kind : String
  trackId : Option Nat
  deriving DecidableEq, Repr

/-- The limit `const limit = page * num` — how many results `search` asks the
upstream endpoint for. -/
def searchLimit (num page : Nat) : Nat :=
  page * num

/-- The filter `response.results.filter(app => app.kind === 'software')`. -/
def searchFilter (results : List ITunesEntry) : List ITunesEntry :=
  results.filter (fun app => app.kind == "software")

/-- The pagination slice of `search`: filter to software entries, then
`allResults.slice(start, end)` with `start = (page - 1) * num` and
`end = start + num`. -/
def searchPaginate (results : List ITunesEntry) (num page : Nat) : List ITunesEntry :=
  let allResults := searchFilter results
  let start := (page - 1) * num
  (allResults.drop start).take num

/-- The `idsOnly` projection: map to `trackId` and drop entries whose id
is `undefined`. -/
def searchIdsOnly (paginatedResults : List ITunesEntry) : List Nat :=
  (paginatedResults.map (fun r => r.trackId)).filterMap id

/-- C1: `search` requests `limit = page * num` upstream, filters raw
results to `kind = "software"` before slicing, returns exactly the
filtered entries at positions `[(page-1)*num, page*num)` in upstream
order, and hence at most `num` entries. -/
theorem search_pagination_window (results : List ITunesEntry) (num page : Nat)
    (hpage : 1 ≤ page) (hnum : 1 ≤ num) :
    searchLimit num page = page * num ∧
    searchPaginate results num page =
      ((searchFilter results).drop ((page - 1) * num)).take num ∧
    (∀ i : Nat, (searchPaginate results num page).get? i =
      if i < num then (searchFilter results).get? ((page - 1) * num + i) else none) ∧
    (searchPaginate results num page).length ≤ num := by
  refine ⟨rfl, rfl, ?_, ?_⟩
  · intro i
    by_cases hi : i < num
    · simp [searchPaginate, hi, List.getElem?_take_of_lt, List.getElem?_drop]
    · simp [searchPaginate, hi]
      omega
  · simp [searchPaginate]

/-- Witness for C1 at a concrete input: page 2 of size 1 over a raw list
with a non-software entry interleaved. -/
theorem search_pagination_window_witness :
    (1 ≤ 2 ∧ 1 ≤ 1) ∧
    searchPaginate [⟨"software", some 10⟩, ⟨"podcast", some 11⟩, ⟨"software", some 12⟩] 1 2 =
      [⟨"software", some 12⟩] := by
  refine ⟨⟨by decide, by decide⟩, ?_⟩
  have h := search_pagination_window
    [⟨"software", some 10⟩, ⟨"podcast", some 11⟩, ⟨"software", some 12⟩] 1 2
    (by decide) (by decide)
  rw [h.2.1]
  rfl

/-! ## Ratings (`src/lib/ratings.ts`) -/

/-- Numeric value of a list of decimal digit characters. -/
def digitsVal (ds : List Char) : Nat :=
  ds.foldl (fun n c => n * 10 + (c.toNat - '0'.toNat)) 0

/-- JS `s.trim()` over the character list: strip leading and trailing
whitespace. -/
def trimChars (cs : List Char) : List Char :=
  ((cs.dropWhile Char.isWhitespace).reverse.dropWhile Char.isWhitespace).reverse

/-- JS `s.trim()`. -/
def jsTrim (s : String) : String :=
  String.mk (trimChars s.toList)

/-- Whether the second list is an initial segment of the first. -/
def leadsWith : List Char → List Char → Bool
  | _, [] => true
  | [], _ :: _ => false
  | a :: as, b :: bs => a == b && leadsWith as bs

/-- Whether the needle occurs somewhere in the haystack. -/
def containsSub (hay needle : List Char) : Bool :=
  match hay with
  | [] => needle.isEmpty
  | _ :: t => leadsWith hay needle || containsSub t needle

/-- JS `s.includes(sub)`. -/
def strIncludes (s sub : String) : Bool :=
  containsSub s.toList sub.toList

/-- JS `parseInt(s, 10)`: skip leading whitespace, optional sign, read the
leading run of decimal digits; `NaN` (here `none`) when no digit is read. -/
def jsParseIntChars : List Char → Option Int
  | [] => none
  | c :: cs =>
    if c.isWhitespace then jsParseIntChars cs
    else if c = '-' then
      let digits := cs.takeWhile Char.isDigit
      if digits = [] then none else some (-(digitsVal digits : Int))
    else if c = '+' then
      let digits := cs.takeWhile Char.isDigit
      if digits = [] then none else some (digitsVal digits : Int)
    else
      let digits := (c :: cs).takeWhile Char.isDigit
      if digits = [] then none else some (digitsVal digits : Int)

/-- The first match of the regex `/\d+/`: the earliest maximal run of
decimal digits, `none` when the string has no digit. -/
def firstDigitRun : List Char → Option (List Char)
  | [] => none
  | c :: cs => if c.isDigit then some (c :: cs.takeWhile Char.isDigit) else firstDigitRun cs

/-- A JS object with numeric keys, as built by the `reduce` in
`parseRatings`: maps a key to `some v` when present (`v = none` models a
`NaN` value stored under the key). -/
def RatingHistogram : Type := Int → Option (Option Int)

/-- The assignment `acc[starRating] = ratingsForStar` — set one key of the object. -/
def hset (h : RatingHistogram) (k : Int) (v : Option Int) : RatingHistogram :=
  fun q => if q = k then some v else h q

/-- The reduce's initial object `{ 1: 0, 2: 0, 3: 0, 4: 0, 5: 0 }`. -/
def hinit : RatingHistogram :=
  fun q => if 1 ≤ q ∧ q ≤ 5 then some (some 0) else none

structure Ratings where
  ratings : Nat
  histogram : RatingHistogram

/-- The `reduce` of `parseRatings`: for the `index`-th per-star count set
key `5 - index` to the parsed value, starting from the zero-filled object. -/
def buildHistogram (ratingsByStar : List (Option Int)) : RatingHistogram :=
  (ratingsByStar.enum).foldl (fun acc iv => hset acc ((5 : Int) - iv.1) iv.2) hinit

/-- The body of `parseRatings`: the total count is the first digit run of the
`.rating-count` text (`0` when no digits parse), the histogram is built
from the `parseInt` results of the `.vote .total` element texts. -/
def parseRatings (ratingCountText : String) (voteTexts : List String) : Ratings :=
  let totalRatings :=
    match firstDigitRun ratingCountText.toList with
    | some ds => digitsVal ds
    | none => 0
  let ratingsByStar := voteTexts.map (fun t => jsParseIntChars t.toList)
  { ratings := totalRatings, histogram := buildHistogram ratingsByStar }

/-- The ratings page as the source reads it: the raw body (only its length
is inspected) and the texts cheerio extracts for the total-count element
and the per-star elements. -/
structure RatingsPage where
  raw : String
  ratingCountText : String
  voteTexts : List String

/-- The `ratings` operation after the transport call: empty body is "App
not found (404)", otherwise `parseRatings` on the body. -/
def ratingsRun (p : RatingsPage) : Except String Ratings :=
  if p.raw.length = 0 then .error "App not found (404)"
  else .ok (parseRatings p.ratingCountText p.voteTexts)

/-- The reduce step of `buildHistogram`. -/
def hstep (acc : RatingHistogram) (iv : Nat × Option Int) : RatingHistogram :=
  hset acc ((5 : Int) - iv.1) iv.2

theorem buildHistogram_eq_fold (votes : List (Option Int)) :
    buildHistogram votes = (votes.enumFrom 0).foldl hstep hinit :=
  rfl

/-- Keys not of the form `5 - (n + j)` are untouched by the fold. -/
theorem hfold_preserve (votes : List (Option Int)) (n : Nat) (acc : RatingHistogram)
    (k : Int) (h : ∀ j, j < votes.length → (5 : Int) - (n + j) ≠ k) :
    ((votes.enumFrom n).foldl hstep acc) k = acc k := by
  induction votes generalizing n acc with
  | nil => rfl
  | cons v vs ih =>
    simp only [List.enumFrom, List.foldl_cons]
    rw [ih (n + 1) _ (fun j hj => by
      have := h (j + 1) (by simpa using Nat.succ_lt_succ hj)
      push_cast at this ⊢
      omega)]
    have hk : (5 : Int) - n ≠ k := by
      have := h 0 (by simp)
      simpa using this
    simp [hstep, hset, Ne.symm hk]

/-- The fold stores the `j`-th parsed count under key `5 - (n + j)`. -/
theorem hfold_lookup (votes : List (Option Int)) (n : Nat) (acc : RatingHistogram)
    (j : Nat) (hj : j < votes.length) :
    ((votes.enumFrom n).foldl hstep acc) ((5 : Int) - (n + j)) =
      some (votes.get ⟨j, hj⟩) := by
  induction votes generalizing n acc j with
  | nil => simp at hj
  | cons v vs ih =>
    simp only [List.enumFrom, List.foldl_cons]
    cases j with
    | zero =>
      rw [hfold_preserve vs (n + 1) _ _ (fun j hj => by push_cast; omega)]
      simp [hstep, hset]
    | succ j' =>
      have hj' : j' < vs.length := Nat.lt_of_succ_lt_succ hj
      have := ih (n + 1) (hstep acc (n, v)) j' hj'
      simpa [show ((n : Int) + 1 + j') = ((n : Int) + (j' + 1)) by push_cast; omega]
        using this

/-- Every key of the fold result holds either the accumulator's value or
one of the parsed per-star counts. -/
theorem hfold_values (votes : List (Option Int)) (n : Nat) (acc : RatingHistogram)
    (k : Int) :
    ((votes.enumFrom n).foldl hstep acc) k = acc k ∨
      ∃ v ∈ votes, ((votes.enumFrom n).foldl hstep acc) k = some v := by
  induction votes generalizing n acc with
  | nil => exact Or.inl rfl
  | cons v vs ih =>
    simp only [List.enumFrom, List.foldl_cons]
    rcases ih (n + 1) (hstep acc (n, v)) with h | ⟨w, hw, hw'⟩
    · rw [h]
      by_cases hk : k = (5 : Int) - n
      · exact Or.inr ⟨v, by simp, by simp [hstep, hset, hk]⟩
      · exact Or.inl (by simp [hstep, hset, hk])
    · exact Or.inr ⟨w, by simp [hw], hw'⟩

/-- C2 (amended): on a non-empty body whose page presents at most five
per-star elements, each with text `parseInt` reads as a non-negative
integer, `ratings` succeeds and its histogram has key set exactly
`{1,2,3,4,5}` with non-negative integer values, maps the `j`-th per-star
element to star `5 - j`, zero-fills missing stars, and treats an
unparseable total count as `0`; an empty body fails with not-found. -/
theorem ratings_histogram_bounded (p : RatingsPage)
    (hbody : p.raw.length ≠ 0)
    (hlen : p.voteTexts.length ≤ 5)
    (hparse : ∀ t ∈ p.voteTexts, ∃ n : Nat, jsParseIntChars t.toList = some (n : Int)) :
    ratingsRun p = .ok (parseRatings p.ratingCountText p.voteTexts) ∧
    (∀ k : Int, (parseRatings p.ratingCountText p.voteTexts).histogram k ≠ none ↔
      1 ≤ k ∧ k ≤ 5) ∧
    (∀ k : Int, 1 ≤ k → k ≤ 5 → ∃ n : Nat,
      (parseRatings p.ratingCountText p.voteTexts).histogram k = some (some (n : Int))) ∧
    (∀ j : Nat, ∀ hj : j < p.voteTexts.length,
      (parseRatings p.ratingCountText p.voteTexts).histogram (5 - (j : Int)) =
        some (jsParseIntChars (p.voteTexts.get ⟨j, hj⟩).toList)) ∧
    (∀ k : Int, 1 ≤ k → k ≤ 5 - (p.voteTexts.length : Int) →
      (parseRatings p.ratingCountText p.voteTexts).histogram k = some (some 0)) ∧
    (firstDigitRun p.ratingCountText.toList = none →
      (parseRatings p.ratingCountText p.voteTexts).ratings = 0) ∧
    (∀ q : RatingsPage, q.raw.length = 0 →
      ratingsRun q = .error "App not found (404)") := by
  set votes := p.voteTexts.map (fun t => jsParseIntChars t.toList) with hvotes
  have hvlen : votes.length = p.voteTexts.length := by simp [hvotes]
  have hhist : (parseRatings p.ratingCountText p.voteTexts).histogram =
      (votes.enumFrom 0).foldl hstep hinit := rfl
  have lookup : ∀ j : Nat, ∀ hj : j < p.voteTexts.length,
      (parseRatings p.ratingCountText p.voteTexts).histogram (5 - (j : Int)) =
        some (jsParseIntChars (p.voteTexts.get ⟨j, hj⟩).toList) := by
    intro j hj
    have hj' : j < votes.length := by omega
    have h := hfold_lookup votes 0 hinit j hj'
    rw [hhist]
    have hkey : (5 : Int) - ((0 : Nat) + j) = 5 - (j : Int) := by push_cast; ring
    rw [hkey] at h
    rw [h]
    simp [hvotes]
  refine ⟨by simp [ratingsRun, hbody], ?_, ?_, lookup, ?_, ?_, ?_⟩
  · intro k
    constructor
    · intro hne
      by_contra hk
      have hpres := hfold_preserve votes 0 hinit k (fun j hj => by
        have : j < 5 := by omega
        push_cast
        omega)
      rw [hhist, hpres] at hne
      simp [hinit] at hne
      omega
    · rintro ⟨hk1, hk5⟩
      by_cases hidx : (5 - k).toNat < p.voteTexts.length
      · have hkey : (5 : Int) - ((5 - k).toNat : Int) = k := by omega
        have := lookup (5 - k).toNat hidx
        rw [hkey] at this
        rw [this]
        simp
      · have hpres := hfold_preserve votes 0 hinit k (fun j hj => by
          rw [hvlen] at hj
          push_cast
          omega)
        rw [hhist, hpres]
        simp [hinit]
        omega
  · intro k hk1 hk5
    rcases hfold_values votes 0 hinit k with h | ⟨v, hv, hv'⟩
    · rw [hhist, h]
      exact ⟨0, by simp [hinit]; omega⟩
    · rw [hvotes] at hv
      rcases List.mem_map.mp hv with ⟨t, ht, hvt⟩
      rcases hparse t ht with ⟨n, hn⟩
      exact ⟨n, by rw [hhist, hv', ← hvt, hn]⟩
  · intro k hk1 hklen
    have hpres := hfold_preserve votes 0 hinit k (fun j hj => by
      rw [hvlen] at hj
      push_cast
      omega)
    rw [hhist, hpres]
    have : k ≤ 5 := by omega
    simp [hinit]
    omega
  · intro hnone
    have hdata : firstDigitRun p.ratingCountText.data = none := hnone
    simp [parseRatings, hdata]
  · intro q hq
    simp [ratingsRun, hq]

/-- Witness for C2 at a concrete page with two parseable per-star counts. -/
theorem ratings_histogram_bounded_witness :
    ("x".length ≠ 0 ∧ (["5", "4"] : List String).length ≤ 5) ∧
    (parseRatings "no rating digits" ["5", "4"]).histogram 5 = some (some 5) := by
  refine ⟨⟨by decide, by decide⟩, ?_⟩
  have h := ratings_histogram_bounded ⟨"x", "no rating digits", ["5", "4"]⟩
    (by decide) (by decide)
    (by
      intro t ht
      simp only [List.mem_cons, List.not_mem_nil, or_false] at ht
      rcases ht with h | h <;> subst h
      · exact ⟨5, rfl⟩
      · exact ⟨4, rfl⟩)
  have h4 := h.2.2.2.1 0 (by decide)
  norm_num at h4
  exact h4

/-- C2 counterexample to the claim as stated: a page with six per-star
elements yields a histogram carrying key `0`, so the key set is not
exactly `{1,2,3,4,5}` even though the body is non-empty and the call
succeeds. -/
theorem ratings_histogram_key_zero_counterexample :
    ratingsRun ⟨"x", "", ["1", "1", "1", "1", "1", "1"]⟩ =
      Except.ok (parseRatings "" ["1", "1", "1", "1", "1", "1"]) ∧
    (parseRatings "" ["1", "1", "1", "1", "1", "1"]).histogram 0 = some (some 1) := by
  exact ⟨rfl, by decide⟩

/-! ## Privacy extraction (`src/lib/privacy.ts`, `privacy`) -/

/-- One `a[data-test-id="external-link"]` element inside the dialog, as
the source reads it: its `aria-label` and `href` attributes. -/
structure PrivacyLink where
  ariaLabel : Option String
  href : Option String

/-- One `li.purpose-category` item: the `.category-title` text and the
texts of the `.privacy-data-types li` children. -/
structure PrivacyCategory where
  titleText : String
  dataTypeTexts : List String
  deriving DecidableEq, Repr

/-- One `section.purpose-section`: its `h3` text and its category items. -/
structure PurposeSection where
  h3Text : String
  categories : List PrivacyCategory
  deriving DecidableEq, Repr

/-- The app page as the `privacy` function reads it. -/
structure PrivacyPage where
  links : List PrivacyLink
  sections : List PurposeSection

structure PrivacyType where
  privacyType : String
  name : String
  description : String
  dataCategories : List String
  purposes : List String
  deriving DecidableEq, Repr

structure PrivacyDetails where
  privacyPolicyUrl : Option String
  privacyTypes : Option (List PrivacyType)
  deriving DecidableEq, Repr

/-- The loop guard `ariaLabel && ariaLabel.includes('Privacy Policy')`. -/
def linkIsPrivacyPolicy (l : PrivacyLink) : Bool :=
  match l.ariaLabel with
  | some lbl => lbl != "" && strIncludes lbl "Privacy Policy"
  | none => false

/-- The first matching link's `href` (the `each` loop breaks on the first
label match, keeping whatever `href` that element has). -/
def privacyPolicyUrlOf (page : PrivacyPage) : Option String :=
  (page.links.find? linkIsPrivacyPolicy).bind (fun l => l.href)

/-- The record the loop body pushes for one category item, `none` when the
guard `categoryName && dataTypes.length > 0` rejects it. -/
def categoryRecord (purpose : String) (c : PrivacyCategory) : Option PrivacyType :=
  let categoryName := jsTrim c.titleText
  let dataTypes := c.dataTypeTexts.map jsTrim
  if categoryName ≠ "" ∧ dataTypes.length > 0 then
    some { privacyType := categoryName, name := categoryName,
           description := "Used for " ++ purpose,
           dataCategories := dataTypes, purposes := [purpose] }
  else none

/-- The nested `each` loops over purpose sections and category items,
pushing one record per category `categoryRecord` accepts. -/
def privacyTypesOf (page : PrivacyPage) : List PrivacyType :=
  page.sections.foldl (fun acc sec =>
    let purpose := jsTrim sec.h3Text
    sec.categories.foldl (fun acc c =>
      match categoryRecord purpose c with
      | some r => acc ++ [r]
      | none => acc) acc) []

/-- The result assembly of `privacy`: both fields are set only when
truthy / non-empty. -/
def privacyRun (page : PrivacyPage) : PrivacyDetails :=
  let url := privacyPolicyUrlOf page
  let types := privacyTypesOf page
  { privacyPolicyUrl :=
      match url with
      | some u => if u ≠ "" then some u else none
      | none => none,
    privacyTypes := if types.length > 0 then some types else none }

/-! ## Screenshot scraping (`src/lib/privacy.ts`, app module part) -/

structure SrcsetCandidate where
  url : String
  width : Nat
  deriving DecidableEq, Repr

/-- First match of `/(\d+)w/`: the earliest digit run immediately
followed by `'w'`. -/
def matchWidthDigits : List Char → Option (List Char)
  | [] => none
  | c :: cs =>
    let run := (c :: cs).takeWhile Char.isDigit
    if run.isEmpty then matchWidthDigits cs
    else
      match (c :: cs).dropWhile Char.isDigit with
      | 'w' :: _ => some run
      | _ => matchWidthDigits cs

/-- The width `widthMatch?.[1] ? parseInt(widthMatch[1], 10) : 0`. -/
def parseWidth (w : String) : Nat :=
  match matchWidthDigits w.toList with
  | some ds => digitsVal ds
  | none => 0

/-- One step of the whitespace tokenizer: running token and finished
tokens. -/
def tokenFold (cs : List Char) : List Char × List String :=
  cs.foldr (fun c p =>
    if c.isWhitespace then ([], if p.1.isEmpty then p.2 else String.mk p.1 :: p.2)
    else (c :: p.1, p.2)) ([], [])

/-- JS `s.split(/\s+/)` on a trimmed string: its maximal non-whitespace
runs (and `[]` for the empty string, whose JS `[""]` first element is
recovered by the `""` default below). -/
def splitTokens (cs : List Char) : List String :=
  let p := tokenFold cs
  if p.1.isEmpty then p.2 else String.mk p.1 :: p.2

/-- One srcset entry: `entry.trim().split(/\s+/)`, URL from the first
part, width parsed from the second. -/
def parseSrcsetEntry (entry : String) : SrcsetCandidate :=
  let parts := splitTokens (trimChars entry.toList)
  let url := parts.getD 0 ""
  let width :=
    match parts.get? 1 with
    | some w => parseWidth w
    | none => 0
  ⟨url, width⟩

def takeDigits (cs : List Char) : List Char × List Char :=
  (cs.takeWhile Char.isDigit, cs.dropWhile Char.isDigit)

def isExtChars (cs : List Char) : Bool :=
  cs == "webp".toList || cs == "jpg".toList || cs == "jpeg".toList || cs == "png".toList

/-- Whether a final path segment matches `\d+x\d+bb(-\d+)?\.(webp|jpg|jpeg|png)`
(the part of the replace regex after the `/`). -/
def isSizeSegment (cs : List Char) : Bool :=
  let (d1, r1) := takeDigits cs
  if d1.isEmpty then false
  else
    match r1 with
    | 'x' :: r2 =>
      let (d2, r3) := takeDigits r2
      if d2.isEmpty then false
      else
        match r3 with
        | 'b' :: 'b' :: r4 =>
          let r5 :=
            match r4 with
            | '-' :: r =>
              let (d3, r') := takeDigits r
              if d3.isEmpty then r4 else r'
            | _ => r4
          (match r5 with
           | '.' :: ext => isExtChars ext
           | _ => false)
        | _ => false
    | _ => false

/-- Split a char list at its last `'/'`, returning the part before it and
the part after it. -/
def splitLastSlash : List Char → Option (List Char × List Char)
  | [] => none
  | c :: cs =>
    match splitLastSlash cs with
    | some (b, a) => some (c :: b, a)
    | none => if c = '/' then some ([], cs) else none

/-- The rewrite `url.replace(/\/\d+x\d+bb(-\d+)?\.(webp|jpg|jpeg|png)$/, '/392x696bb.png')`. -/
def rewriteScreenshotUrl (url : String) : String :=
  match splitLastSlash url.toList with
  | some (before, seg) =>
    if isSizeSegment seg then String.mk (before ++ "/392x696bb.png".toList) else url
  | none => url

/-- The body of `extractScreenshotUrl`: parse the srcset entries, stable-sort by width
descending, take the first, and rewrite its URL; `null` when the best
entry's URL is empty. -/
def extractScreenshotUrl (srcset : String) : Option String :=
  let entries := (srcset.splitOn ",").map parseSrcsetEntry
  let sorted := entries.mergeSort (fun a b => b.width ≤ a.width)
  match sorted.head? with
  | some best => if best.url ≠ "" then some (rewriteScreenshotUrl best.url) else none
  | none => none

structure ScrapedScreenshots where
  screenshots : List String
  ipadScreenshots : List String
  appletvScreenshots : List String
  deriving DecidableEq, Repr

/-- The scraping page as `scrapeScreenshots` reads it: per device class,
the `srcset` attribute of each matched `source[type="image/webp"]`
element (absent containers contribute no elements). -/
structure ScrapePage where
  phoneSources : List (Option String)
  padSources : List (Option String)
  tvSources : List (Option String)

/-- One device class's `each` loop: extract, skip `null`, deduplicate
preserving first-seen order. -/
def collectShots (sources : List (Option String)) : List String :=
  sources.foldl (fun acc srcset =>
    match srcset with
    | some s =>
      (match extractScreenshotUrl s with
       | some url => if url ∈ acc then acc else acc ++ [url]
       | none => acc)
    | none => acc) []

/-- The body of `scrapeScreenshots`: the whole fetch/parse is wrapped in `try`; any
failure leaves the initial three empty arrays. -/
def scrapeScreenshots (page : Except String ScrapePage) : ScrapedScreenshots :=
  match page with
  | .error _ => ⟨[], [], []⟩
  | .ok p => ⟨collectShots p.phoneSources, collectShots p.padSources, collectShots p.tvSources⟩

/-! ## App orchestration (`src/lib/privacy.ts`, `app`) -/

/-- The canonical App record, restricted to the fields the orchestration
reads or writes. -/
structure App where
  id : Nat
  appId : String
  title : String
  screenshots : List String
  ipadScreenshots : List String
  appletvScreenshots : List String
  histogram : Option RatingHistogram

/-- The screenshot fallback of `app`: when all three arrays from the
primary lookup are empty, overwrite them with the scraping result. -/
def screenshotStep (appData : App) (page : Except String ScrapePage) : App :=
  if appData.screenshots.length = 0 ∧ appData.ipadScreenshots.length = 0 ∧
      appData.appletvScreenshots.length = 0 then
    let scraped := scrapeScreenshots page
    { appData with screenshots := scraped.screenshots,
                   ipadScreenshots := scraped.ipadScreenshots,
                   appletvScreenshots := scraped.appletvScreenshots }
  else appData

/-- The optional histogram enrichment of `app`: on success store the
histogram, on any failure continue without it. -/
def ratingsStep (appData : App) (includeRatings : Bool)
    (ratingsOutcome : Except String Ratings) : App :=
  if includeRatings then
    match ratingsOutcome with
    | .ok r => { appData with histogram := some r.histogram }
    | .error _ => appData
  else appData

/-- The body of `app` after input validation: primary lookup result, then the
screenshot fallback, then the best-effort histogram enrichment. -/
def appRun (lookupResults : List App) (includeRatings : Bool)
    (scrapePage : Except String ScrapePage) (ratingsOutcome : Except String Ratings) :
    Except String App :=
  match lookupResults with
  | [] => .error "App not found"
  | appData :: _ =>
    .ok (ratingsStep (screenshotStep appData scrapePage) includeRatings ratingsOutcome)

/-! ## Version history (unnamed module, `versionHistory`) -/

/-- One `article.svelte-13339ih` block inside the dialog, as the source
reads it: the `p` text, the `h4` text, and the `time` element's
`datetime` attribute. -/
structure VersionArticle where
  pText : String
  h4Text : String
  timeDatetime : Option String
  deriving DecidableEq, Repr

structure VersionHistoryEntry where
  versionDisplay : String
  releaseDate : String
  releaseNotes : Option String
  deriving DecidableEq, Repr

/-- The `each` loop of `versionHistory`: per article push one entry with
trimmed version label, the `datetime` attribute or `''`, and
`releaseNotes || undefined`. -/
def versionHistoryExtract (articles : List VersionArticle) : List VersionHistoryEntry :=
  articles.foldl (fun versions a =>
    let releaseNotes := jsTrim a.pText
    let versionDisplay := jsTrim a.h4Text
    let releaseDateRaw := a.timeDatetime.getD ""
    versions ++ [{ versionDisplay := versionDisplay,
                   releaseDate := releaseDateRaw,
                   releaseNotes := if releaseNotes = "" then none else some releaseNotes }]) []

/-! ## Suggestions (unnamed module, `suggest`) -/

/-- The `string` field of a suggestion dict after XML parsing: a scalar or
a sequence, or absent. -/
inductive StringField where
  | scalar (s : String)
  | seq (l : List String)
  deriving DecidableEq, Repr

structure SuggestDict where
  field : Option StringField
  deriving DecidableEq, Repr

/-- The validated `plist.dict.array` value: either a bare string or an
object with an optional `dict` list. -/
inductive SuggestArrayData where
  | bare (s : String)
  | obj (dict : Option (List SuggestDict))
  deriving DecidableEq, Repr

structure Suggestion where
  term : String
  deriving DecidableEq, Repr

/-- The normalization `Array.isArray(dict.string) ? dict.string : [dict.string]` — the
always-a-sequence normalization (an absent field becomes `[undefined]`). -/
def dictStrings (d : SuggestDict) : List (Option String) :=
  match d.field with
  | some (.seq l) => l.map some
  | some (.scalar s) => [some s]
  | none => [none]

/-- The per-dict extraction: `strings[0]` pushed as a suggestion only when
truthy. -/
def dictSuggestion (d : SuggestDict) : Option Suggestion :=
  match (dictStrings d).getD 0 none with
  | some t => if t ≠ "" then some ⟨t⟩ else none
  | none => none

/-- The navigation and loop of `suggest` after validation:
`result.plist?.dict?.array`, early `[]` when the array is a bare string
or lacks `dict`, else one pass over the dicts. -/
def suggestExtract (arrayData : Option SuggestArrayData) : List Suggestion :=
  match arrayData with
  | none => []
  | some (.bare _) => []
  | some (.obj none) => []
  | some (.obj (some dicts)) =>
    dicts.foldl (fun acc d =>
      match (dictStrings d).getD 0 none with
      | some t => if t ≠ "" then acc ++ [⟨t⟩] else acc
      | none => acc) []

/-- The validated suggest response: `plist?.dict?.array` chain. -/
structure SuggestResponse where
  plistDictArray : Option SuggestArrayData
  deriving DecidableEq, Repr

/-- The body of `suggest` after the transport call: a validation failure aborts, a
validated response goes through `suggestExtract`. -/
def suggestRun (validated : Except String SuggestResponse) : Except String (List Suggestion) :=
  match validated with
  | .error e => .error ("Suggest API response validation failed: " ++ e)
  | .ok r => .ok (suggestExtract r.plistDictArray)

/-! ## Theorems: version history, suggestions -/

/-- C9: every version-history entry carries the trimmed version label, the
ISO `datetime` attribute value or `""` when absent, and trimmed release
notes omitted (never an empty string) when there is no notes text; entries
appear in source document order. -/
theorem version_history_entries (articles : List VersionArticle) :
    versionHistoryExtract articles = articles.map (fun a =>
      { versionDisplay := jsTrim a.h4Text,
        releaseDate := a.timeDatetime.getD "",
        releaseNotes := if jsTrim a.pText = "" then none else some (jsTrim a.pText) }) := by
  have h : ∀ (l : List VersionArticle) (acc : List VersionHistoryEntry),
      l.foldl (fun versions a =>
        versions ++ [{ versionDisplay := jsTrim a.h4Text,
                       releaseDate := a.timeDatetime.getD "",
                       releaseNotes := if jsTrim a.pText = "" then none
                                       else some (jsTrim a.pText) }]) acc =
      acc ++ l.map (fun a =>
        { versionDisplay := jsTrim a.h4Text,
          releaseDate := a.timeDatetime.getD "",
          releaseNotes := if jsTrim a.pText = "" then none else some (jsTrim a.pText) }) := by
    intro l
    induction l with
    | nil => simp
    | cons a l ih => intro acc; simp [ih]
  simpa [versionHistoryExtract] using h articles []

/-- The suggestion loop collects exactly the accepted per-dict terms. -/
theorem suggestExtract_obj_eq (dicts : List SuggestDict) :
    suggestExtract (some (.obj (some dicts))) = dicts.filterMap dictSuggestion := by
  have h : ∀ (l : List SuggestDict) (acc : List Suggestion),
      l.foldl (fun acc d =>
        match (dictStrings d).getD 0 none with
        | some t => if t ≠ "" then acc ++ [⟨t⟩] else acc
        | none => acc) acc = acc ++ l.filterMap dictSuggestion := by
    intro l
    induction l with
    | nil => simp
    | cons d l ih =>
      intro acc
      simp only [List.foldl_cons, List.filterMap_cons, ih, dictSuggestion]
      cases hd : (dictStrings d).getD 0 none with
      | none => simp
      | some t =>
        by_cases ht : t = "" <;> simp [ht]
  simpa [suggestExtract] using h dicts []

/-- C8: a scalar `string` field is treated as a one-element sequence, the
first string value of each dict entry becomes the term, a bare-string
`array` or a missing `dict` child yields `[]` rather than an error, and
the well-formed one-dict response yields `[{term:"minecraft"}]`. -/
theorem suggest_scalar_normalization :
    suggestRun (Except.ok ⟨some (.obj (some [⟨some (.seq ["minecraft"])⟩]))⟩) =
      Except.ok [⟨"minecraft"⟩] ∧
    (∀ s : String, suggestExtract (some (.bare s)) = []) ∧
    suggestExtract (some (.obj none)) = [] ∧
    (∀ dicts : List SuggestDict,
      suggestExtract (some (.obj (some dicts))) = dicts.filterMap dictSuggestion) ∧
    (∀ (pre post : List SuggestDict) (s : String),
      suggestExtract (some (.obj (some (pre ++ ⟨some (.scalar s)⟩ :: post)))) =
        suggestExtract (some (.obj (some (pre ++ ⟨some (.seq [s])⟩ :: post))))) := by
  refine ⟨rfl, fun s => rfl, rfl, suggestExtract_obj_eq, ?_⟩
  intro pre post s
  rw [suggestExtract_obj_eq, suggestExtract_obj_eq]
  simp only [List.filterMap_append, List.filterMap_cons]
  rfl

/-- C10 (implicit): a dict entry whose first string value is missing or
empty contributes no suggestion and raises no error, so every returned
suggestion has a non-empty term. -/
theorem suggest_drops_empty_terms :
    (∀ arrayData : Option SuggestArrayData,
      (suggestExtract arrayData).all (fun s => s.term != "") = true) ∧
    (∀ (pre post : List SuggestDict) (d : SuggestDict), dictSuggestion d = none →
      suggestExtract (some (.obj (some (pre ++ d :: post)))) =
        suggestExtract (some (.obj (some (pre ++ post))))) ∧
    dictSuggestion ⟨some (.seq [])⟩ = none ∧
    dictSuggestion ⟨some (.scalar "")⟩ = none ∧
    dictSuggestion ⟨none⟩ = none := by
  refine ⟨?_, ?_, rfl, by decide, rfl⟩
  · intro arrayData
    match arrayData with
    | none => rfl
    | some (.bare s) => rfl
    | some (.obj none) => rfl
    | some (.obj (some dicts)) =>
      rw [suggestExtract_obj_eq, List.all_eq_true]
      intro s hs
      rcases List.mem_filterMap.mp hs with ⟨d, _, hd⟩
      unfold dictSuggestion at hd
      rcases h0 : (dictStrings d).getD 0 none with _ | t
      · rw [h0] at hd; cases hd
      · rw [h0] at hd
        by_cases ht : t = ""
        · simp [ht] at hd
        · simp only [ht, if_pos, ne_eq, not_false_iff, if_true] at hd
          cases hd
          simpa using ht
  · intro pre post d hd
    rw [suggestExtract_obj_eq, suggestExtract_obj_eq]
    simp [List.filterMap_append, List.filterMap_cons, hd]

/-- Witness for C10's dropping conjunct at a concrete dict list. -/
theorem suggest_drops_empty_terms_witness :
    dictSuggestion ⟨some (.seq [])⟩ = none ∧
    suggestExtract (some (.obj (some [⟨some (.seq ["minecraft"])⟩, ⟨some (.seq [])⟩]))) =
      suggestExtract (some (.obj (some [⟨some (.seq ["minecraft"])⟩]))) := by
  refine ⟨rfl, ?_⟩
  have h := suggest_drops_empty_terms.2.1 [⟨some (.seq ["minecraft"])⟩] []
    ⟨some (.seq [])⟩ rfl
  simpa using h

/-! ## Theorems: privacy extraction -/

/-- The inner category loop collects exactly the accepted records. -/
theorem privacy_inner_fold (purpose : String) (cats : List PrivacyCategory)
    (acc : List PrivacyType) :
    cats.foldl (fun acc c =>
      match categoryRecord purpose c with
      | some r => acc ++ [r]
      | none => acc) acc = acc ++ cats.filterMap (categoryRecord purpose) := by
  induction cats generalizing acc with
  | nil => simp
  | cons c cs ih =>
    rw [List.foldl_cons, List.filterMap_cons]
    cases hc : categoryRecord purpose c with
    | none => simp [hc, ih]
    | some r => simp [hc, ih]

/-- The outer section loop concatenates the per-section collections. -/
theorem privacyTypesOf_eq (page : PrivacyPage) :
    privacyTypesOf page = page.sections.flatMap (fun sec =>
      sec.categories.filterMap (categoryRecord (jsTrim sec.h3Text))) := by
  have h : ∀ (secs : List PurposeSection) (acc : List PrivacyType),
      secs.foldl (fun acc sec =>
        let purpose := jsTrim sec.h3Text
        sec.categories.foldl (fun acc c =>
          match categoryRecord purpose c with
          | some r => acc ++ [r]
          | none => acc) acc) acc =
      acc ++ secs.flatMap (fun sec =>
        sec.categories.filterMap (categoryRecord (jsTrim sec.h3Text))) := by
    intro secs
    induction secs with
    | nil => simp
    | cons sec rest ih =>
      intro acc
      rw [List.foldl_cons]
      show rest.foldl _ (sec.categories.foldl _ acc) = _
      rw [privacy_inner_fold (jsTrim sec.h3Text) sec.categories acc, ih]
      simp [List.flatMap_cons]
  simpa [privacyTypesOf] using h page.sections []

/-- C6: the privacy result never exposes an empty-string policy URL nor an
empty privacy-types array — both fields are omitted instead. -/
theorem privacy_omits_empty_fields (page : PrivacyPage) :
    (privacyRun page).privacyPolicyUrl ≠ some "" ∧
    (privacyRun page).privacyTypes ≠ some [] := by
  constructor
  · cases hu : privacyPolicyUrlOf page with
    | none => simp [privacyRun, hu]
    | some u =>
      by_cases h : u = "" <;> simp [privacyRun, hu, h]
  · by_cases h : (privacyTypesOf page).length > 0
    · have hne : privacyTypesOf page ≠ [] := by
        intro he
        rw [he] at h
        simp at h
      simp [privacyRun, h, hne]
    · simp [privacyRun, h]

/-- C7 counterexample to the claim as stated: a category item with one
declared data-type child but an empty category title produces no record
at all. -/
theorem privacy_types_titleless_counterexample :
    privacyTypesOf ⟨[], [⟨"Analytics", [⟨"", ["Location"]⟩]⟩]⟩ = [] ∧
    (PrivacyCategory.mk "" ["Location"]).dataTypeTexts.length = 1 := by
  exact ⟨by decide, rfl⟩

/-- C7 (amended): for each purpose section, each category item with a
non-empty trimmed title and at least one data-type child yields exactly
one record carrying that purpose; data-type-less categories (hence
sections made only of them) are dropped silently. -/
theorem privacy_types_per_qualifying_category (page : PrivacyPage) :
    privacyTypesOf page = page.sections.flatMap (fun sec =>
      sec.categories.filterMap (categoryRecord (jsTrim sec.h3Text))) ∧
    (∀ (purpose : String) (c : PrivacyCategory), c.dataTypeTexts = [] →
      categoryRecord purpose c = none) ∧
    (∀ (purpose : String) (c : PrivacyCategory),
      jsTrim c.titleText ≠ "" → c.dataTypeTexts ≠ [] →
      categoryRecord purpose c =
        some { privacyType := jsTrim c.titleText, name := jsTrim c.titleText,
               description := "Used for " ++ purpose,
               dataCategories := c.dataTypeTexts.map jsTrim,
               purposes := [purpose] }) := by
  refine ⟨privacyTypesOf_eq page, ?_, ?_⟩
  · intro purpose c hc
    simp [categoryRecord, hc]
  · intro purpose c ht hd
    have hlen : (c.dataTypeTexts.map jsTrim).length > 0 := by
      simp [List.length_pos, hd]
    simp [categoryRecord, ht, hlen, hd]

/-- Witness for C7 at a concrete page with one qualifying category and one
data-type-less category. -/
theorem privacy_types_per_qualifying_category_witness :
    privacyTypesOf ⟨[], [⟨"Analytics", [⟨"Usage Data", ["Product Interaction"]⟩,
                                        ⟨"Diagnostics", []⟩]⟩]⟩ =
      ([⟨"Analytics", [⟨"Usage Data", ["Product Interaction"]⟩,
         ⟨"Diagnostics", []⟩]⟩] : List PurposeSection).flatMap (fun sec =>
        sec.categories.filterMap (categoryRecord (jsTrim sec.h3Text))) ∧
    categoryRecord "Analytics" ⟨"Diagnostics", []⟩ = none ∧
    categoryRecord "Analytics" ⟨"Usage Data", ["Product Interaction"]⟩ ≠ none := by
  have h := privacy_types_per_qualifying_category
    ⟨[], [⟨"Analytics", [⟨"Usage Data", ["Product Interaction"]⟩, ⟨"Diagnostics", []⟩]⟩]⟩
  refine ⟨h.1, h.2.1 "Analytics" ⟨"Diagnostics", []⟩ rfl, ?_⟩
  rw [h.2.2 "Analytics" ⟨"Usage Data", ["Product Interaction"]⟩ (by decide) (by decide)]
  simp

/-! ## Theorems: screenshot scraping and app orchestration -/

/-- C4: screenshot scraping never throws — any fetch/parse failure yields
the record with all three arrays empty, and a missing container for one
device class yields an empty array for that class alone. -/
theorem scrape_screenshots_never_throws (e : String) (p : ScrapePage) :
    scrapeScreenshots (Except.error e) = ⟨[], [], []⟩ ∧
    (p.phoneSources = [] → (scrapeScreenshots (Except.ok p)).screenshots = []) ∧
    (p.padSources = [] → (scrapeScreenshots (Except.ok p)).ipadScreenshots = []) ∧
    (p.tvSources = [] → (scrapeScreenshots (Except.ok p)).appletvScreenshots = []) := by
  refine ⟨rfl, ?_, ?_, ?_⟩ <;>
    · intro h
      simp [scrapeScreenshots, collectShots, h]

/-- Witness for C4: a failed fetch and a page with a missing phone
container but one pad screenshot. -/
theorem scrape_screenshots_never_throws_witness :
    scrapeScreenshots (Except.error "network failure") = ⟨[], [], []⟩ ∧
    (scrapeScreenshots (Except.ok ⟨[], [some "https://a/img/300x650bb.webp 300w"], []⟩)).screenshots
      = [] := by
  have h := scrape_screenshots_never_throws "network failure"
    ⟨[], [some "https://a/img/300x650bb.webp 300w"], []⟩
  exact ⟨h.1, h.2.1 rfl⟩

/-- C3: when the primary lookup succeeds and histogram enrichment was
requested, a failing enrichment still yields a successful result whose
non-histogram fields are those the earlier steps produced and whose
histogram stays absent. -/
theorem app_histogram_enrichment_best_effort (a : App) (rest : List App)
    (page : Except String ScrapePage) (e : String) (hh : a.histogram = none) :
    appRun (a :: rest) true page (Except.error e) = Except.ok (screenshotStep a page) ∧
    (screenshotStep a page).histogram = none ∧
    (screenshotStep a page).id = a.id ∧
    (screenshotStep a page).appId = a.appId ∧
    (screenshotStep a page).title = a.title := by
  refine ⟨by simp [appRun, ratingsStep], ?_, ?_, ?_, ?_⟩ <;>
    · simp only [screenshotStep]
      split <;> simp [hh]

/-- Witness for C3: a looked-up record with one phone screenshot, a
throwing ratings call, and a failing scraping page. -/
theorem app_histogram_enrichment_best_effort_witness :
    appRun [⟨42, "com.example.app", "Example", ["https://a/1.png"], [], [], none⟩] true
        (Except.error "fetch failed") (Except.error "ratings failed") =
      Except.ok (screenshotStep
        ⟨42, "com.example.app", "Example", ["https://a/1.png"], [], [], none⟩
        (Except.error "fetch failed")) ∧
    (screenshotStep ⟨42, "com.example.app", "Example", ["https://a/1.png"], [], [], none⟩
      (Except.error "fetch failed")).histogram = none := by
  have h := app_histogram_enrichment_best_effort
    ⟨42, "com.example.app", "Example", ["https://a/1.png"], [], [], none⟩ []
    (Except.error "fetch failed") "ratings failed" rfl
  exact ⟨h.1, h.2.1⟩

/-- C5: the scraping fallback replaces the three screenshot fields exactly
when all three primary arrays are empty (with the scraping result, empty
or not), leaves them untouched otherwise, and never changes any other
field. -/
theorem app_screenshot_fallback_iff (a : App) (page : Except String ScrapePage) :
    (a.screenshots = [] ∧ a.ipadScreenshots = [] ∧ a.appletvScreenshots = [] →
      screenshotStep a page =
        { a with screenshots := (scrapeScreenshots page).screenshots,
                 ipadScreenshots := (scrapeScreenshots page).ipadScreenshots,
                 appletvScreenshots := (scrapeScreenshots page).appletvScreenshots }) ∧
    (¬(a.screenshots = [] ∧ a.ipadScreenshots = [] ∧ a.appletvScreenshots = []) →
      screenshotStep a page = a) ∧
    (screenshotStep a page).id = a.id ∧
    (screenshotStep a page).appId = a.appId ∧
    (screenshotStep a page).title = a.title ∧
    (screenshotStep a page).histogram = a.histogram := by
  refine ⟨?_, ?_, ?_, ?_, ?_, ?_⟩
  · rintro ⟨h1, h2, h3⟩
    simp [screenshotStep, h1, h2, h3]
  · intro h
    rw [screenshotStep, if_neg]
    simpa [List.length_eq_zero] using h
  all_goals
    simp only [screenshotStep]
    split <;> rfl

/-- Witness for C5: the fallback branch for an all-empty record over a
failing page, and the untouched branch for a record with one screenshot. -/
theorem app_screenshot_fallback_iff_witness :
    screenshotStep ⟨7, "b", "t", [], [], [], none⟩ (Except.error "boom") =
      { (⟨7, "b", "t", [], [], [], none⟩ : App) with
          screenshots := (scrapeScreenshots (Except.error "boom")).screenshots,
          ipadScreenshots := (scrapeScreenshots (Except.error "boom")).ipadScreenshots,
          appletvScreenshots := (scrapeScreenshots (Except.error "boom")).appletvScreenshots } ∧
    screenshotStep ⟨7, "b", "t", ["s"], [], [], none⟩ (Except.error "boom") =
      ⟨7, "b", "t", ["s"], [], [], none⟩ := by
  refine ⟨(app_screenshot_fallback_iff ⟨7, "b", "t", [], [], [], none⟩
    (Except.error "boom")).1 ⟨rfl, rfl, rfl⟩, ?_⟩
  exact (app_screenshot_fallback_iff ⟨7, "b", "t", ["s"], [], [], none⟩
    (Except.error "boom")).2.1 (by simp)

end AppStoreScraper
